import Mathlib

/-!
Shallow embedding of `wurstminebackup` (src/main.rs): a backup retention and
space-reclamation engine.  Filesystem state is modelled explicitly, machine
integers (Rust i64) are modelled as `Int` with explicit range checks where the
source can overflow, fallible code returns `Except`/`Option`, and the async
loops of the source become fuel-indexed recursive functions (`none` = fuel ran
out, which never happens on the concrete runs we evaluate).
-/

namespace Wurstminebackup

/-- The `Error` enum of src/main.rs (payloads dropped: they never influence
control flow in the modelled code). -/
inductive Error where
  | chronoParse
  | minecraft
  | wheel
  | diskSpace
  | filenameFormat
  | jarPath
  | noMount
  | osString
  | utf8
deriving DecidableEq, Repr

/-! ## Rust `i64::from_str`

`version.split('.').map(|part| part.parse::<i64>())` in `delete_one` uses the
standard `i64` parser: an optional `+`/`-` sign followed by one or more ASCII
digits, rejecting the empty string, non-digits, and values outside the `i64`
range. -/

/-- Numeric value of a nonempty all-digit character list. -/
def digitsVal : List Char → Nat
  | [] => 0
  | c :: cs => (digitsVal cs) + c.toNat.sub 48 * 10 ^ cs.length

/-- `some n` when `cs` is a nonempty list of ASCII digits with value `n`. -/
def parseDigits (cs : List Char) : Option Nat :=
  if cs ≠ [] ∧ cs.all Char.isDigit then some (digitsVal cs) else none

/-- Rust `i64::from_str`: optional sign, then digits, within the i64 range. -/
def parseI64 (cs : List Char) : Option Int :=
  match cs with
  | '+' :: rest =>
    match parseDigits rest with
    | some n => if (n : Int) ≤ 2 ^ 63 - 1 then some (n : Int) else none
    | none => none
  | '-' :: rest =>
    match parseDigits rest with
    | some n => if (n : Int) ≤ 2 ^ 63 then some (-(n : Int)) else none
    | none => none
  | _ =>
    match parseDigits cs with
    | some n => if (n : Int) ≤ 2 ^ 63 - 1 then some (n : Int) else none
    | none => none

/-! ## The filename regex

`delete_one` matches every directory entry name against
`^([0-9]{4}-[0-9]{2}-[0-9]{2}_[0-9]{2}-[0-9]{2}-[0-9]{2})_(.+?)(?:\.tar\.gz)?$`.
The timestamp group is fixed-width (19 characters), so the match is forced on
positions 0..18 and position 19 must be `_`.  The version group `(.+?)` is
non-greedy: with the whole string anchored, the captured version is the rest of
the name with one trailing `.tar.gz` stripped when that leaves a nonempty
capture, and the rest of the name unchanged otherwise.  `.` in the regex crate
matches any character except a newline. -/

/-- Shape of the 19-character timestamp group of the regex. -/
def tsShapeOK : List Char → Bool
  | [y1, y2, y3, y4, a, m1, m2, b, d1, d2, c, h1, h2, d, i1, i2, e, s1, s2] =>
    y1.isDigit && y2.isDigit && y3.isDigit && y4.isDigit && a == '-' &&
    m1.isDigit && m2.isDigit && b == '-' && d1.isDigit && d2.isDigit &&
    c == '_' && h1.isDigit && h2.isDigit && d == '-' && i1.isDigit &&
    i2.isDigit && e == '-' && s1.isDigit && s2.isDigit
  | _ => false

/-- The literal suffix `.tar.gz` as a character list. -/
def tarGzSuffix : List Char := ['.', 't', 'a', 'r', '.', 'g', 'z']

/-- The non-greedy version capture: the remainder after the `_` separator with
one trailing `.tar.gz` stripped whenever doing so leaves a nonempty capture. -/
def versionCapture (verPart : List Char) : List Char :=
  if 7 < verPart.length ∧ verPart.drop (verPart.length - 7) = tarGzSuffix
  then verPart.take (verPart.length - 7)
  else verPart

/-- The regex match of `delete_one`, returning the timestamp capture and the
(non-greedy) version capture. -/
def parseFilename (name : String) : Option (String × String) :=
  let cs := name.toList
  if tsShapeOK (cs.take 19) then
    match cs.drop 19 with
    | c :: verPart =>
      if c = '_' then
        if verPart ≠ [] ∧ verPart.all (fun ch => ch ≠ '\n') then
          some (String.mk (cs.take 19), String.mk (versionCapture verPart))
        else none
      else none
    | [] => none
  else none

/-! ## chrono timestamp parsing

`Utc.datetime_from_str(timestamp, "%Y-%m-%d_%H-%M-%S")` parses the captured
timestamp group.  The group already has the digit layout, so what remains is
calendar validation: month 1..12, day within the (leap-aware) month length,
hour 0..23, minute 0..59, second 0..60 (chrono accepts 60 as a leap second).
We map a valid datetime to a second count from year 0; the only place this
deviates from the chrono representation is the ordering of a leap second
against the following minute, which no retention decision in the source can
observe for the inputs treated here. -/

def isLeapYear (y : Nat) : Bool := y % 4 == 0 && (y % 100 != 0 || y % 400 == 0)

def daysInMonth (y m : Nat) : Nat :=
  match m with
  | 1 => 31 | 2 => if isLeapYear y then 29 else 28 | 3 => 31 | 4 => 30
  | 5 => 31 | 6 => 30 | 7 => 31 | 8 => 31 | 9 => 30 | 10 => 31
  | 11 => 30 | 12 => 31
  | _ => 0

/-- Days in the months of year `y` strictly before month `m`. -/
def daysBeforeMonth (y m : Nat) : Nat :=
  match m with
  | 0 | 1 => 0
  | n + 1 => daysBeforeMonth y n + daysInMonth y n

/-- Days in the years 0, 1, ..., y-1 of the proleptic Gregorian calendar. -/
def daysBeforeYear (y : Nat) : Nat :=
  365 * y + ((y + 3) / 4 + (y + 399) / 400 - (y + 99) / 100)

/-- Seconds from year 0 of a calendar datetime. -/
def epochSecs (y mo d h mi s : Nat) : Nat :=
  (daysBeforeYear y + daysBeforeMonth y mo + (d - 1)) * 86400 +
    h * 3600 + mi * 60 + s

def digit2 (a b : Char) : Nat := (a.toNat - 48) * 10 + (b.toNat - 48)

/-- `Utc.datetime_from_str` on the timestamp capture: `some` second count on a
valid datetime, `none` on a chrono parse error. -/
def chronoParseTs (ts : String) : Option Nat :=
  match ts.toList with
  | [y1, y2, y3, y4, '-', m1, m2, '-', d1, d2, '_', h1, h2, '-', i1, i2, '-', s1, s2] =>
    if ([y1, y2, y3, y4, m1, m2, d1, d2, h1, h2, i1, i2, s1, s2].all Char.isDigit) then
      let y := digit2 y1 y2 * 100 + digit2 y3 y4
      let mo := digit2 m1 m2
      let d := digit2 d1 d2
      let h := digit2 h1 h2
      let mi := digit2 i1 i2
      let s := digit2 s1 s2
      if 1 ≤ mo ∧ mo ≤ 12 ∧ 1 ≤ d ∧ d ≤ daysInMonth y mo ∧ h ≤ 23 ∧ mi ≤ 59 ∧ s ≤ 60
      then some (epochSecs y mo d h mi s)
      else none
    else none
  | _ => none

/-! ## Snapshot keys and the catalog (the `BTreeMap` of `delete_one`) -/

/-- `(major, minor, patch, timestamp)`: the `BTreeMap` key of `delete_one`.
The same 4-tuple shape of `Int`s is reused for the distance tuples, where the
last component is the signed `chrono::Duration` of the subtraction. -/
abbrev I4 := Int × Int × Int × Int

/-- Strict lexicographic order on 4-tuples: the derived `Ord` of the Rust key
and distance tuples (major, then minor, then patch, then time). -/
def tupLtB (x y : I4) : Bool :=
  if x.1 < y.1 then true
  else if x.1 = y.1 then
    if x.2.1 < y.2.1 then true
    else if x.2.1 = y.2.1 then
      if x.2.2.1 < y.2.2.1 then true
      else if x.2.2.1 = y.2.2.1 then decide (x.2.2.2 < y.2.2.2)
      else false
    else false
  else false

/-- `version_parts.resize(3, 0)`: pad with zeros below 3 components, truncate
above 3. -/
def resize3 (vs : List Int) : List Int := [vs.getD 0 0, vs.getD 1 0, vs.getD 2 0]

/-- Rust `str::split('.')`: the (possibly empty) chunks between the dots.  The
empty string yields one empty chunk. -/
def splitDot : List Char → List (List Char)
  | [] => [[]]
  | '.' :: rest => [] :: splitDot rest
  | c :: rest =>
    match splitDot rest with
    | [] => [[c]]
    | p :: ps => (c :: p) :: ps

/-- `try_collect` over the dot-separated components: all must parse as `i64`. -/
def collectParsed : List (List Char) → Option (List Int)
  | [] => some []
  | p :: ps =>
    match parseI64 p with
    | none => none
    | some v =>
      match collectParsed ps with
      | none => none
      | some vs => some (v :: vs)

/-- Per-entry step of the catalog loop in `delete_one`: the regex match
(`FilenameFormat` on failure), then the version parse (`FilenameFormat` when
any dot-separated component fails `i64` parsing), then the chrono parse
(`ChronoParse` on an invalid datetime), yielding the `BTreeMap` key. -/
def parseEntry (name : String) : Except Error I4 :=
  match parseFilename name with
  | none => .error .filenameFormat
  | some (ts, ver) =>
    match collectParsed (splitDot ver.toList) with
    | none => .error .filenameFormat
    | some vs =>
      let v3 := resize3 vs
      match chronoParseTs ts with
      | none => .error .chronoParse
      | some t => .ok (v3.getD 0 0, v3.getD 1 0, v3.getD 2 0, (t : Int))

/-- `BTreeMap::insert` on the sorted association list that models the map:
keeps ascending key order, overwrites the value on an equal key. -/
def insertSorted (k : I4) (v : String) : List (I4 × String) → List (I4 × String)
  | [] => [(k, v)]
  | (k1, v1) :: rest =>
    if tupLtB k k1 then (k, v) :: (k1, v1) :: rest
    else if k = k1 then (k, v) :: rest
    else (k1, v1) :: insertSorted k v rest

def buildCatalogAux : List (I4 × String) → List String → Except Error (List (I4 × String))
  | acc, [] => .ok acc
  | acc, n :: rest =>
    match parseEntry n with
    | .error e => .error e
    | .ok k => buildCatalogAux (insertSorted k n acc) rest

/-- The catalog loop of `delete_one`: fold the directory entries (in listing
order) into the sorted map, stopping at the first malformed entry. -/
def buildCatalog (names : List String) : Except Error (List (I4 × String)) :=
  buildCatalogAux [] names

/-! ## The eviction policy of `delete_one` -/

/-- `i64` subtraction as the release binary computes it: the mathematical
difference reduced into `[-2^63, 2^63)` by wrapping (two's complement).  A
debug build would panic at the same inputs; we model the release binary.
Overflow is reachable because version components parse across the full `i64`
range. -/
def wrapSub (a b : Int) : Int := (a - b + 2 ^ 63) % 2 ^ 64 - 2 ^ 63

/-- The `distance` helper of `delete_one`.  The three version fields are `i64`
differences, so they wrap past the `i64` range; the time field is a
`chrono::Duration`, which does not wrap for representable datetimes. -/
def distance (old new : I4) : I4 :=
  (wrapSub new.1 old.1,
   if new.1 = old.1 then wrapSub new.2.1 old.2.1 else 0,
   if new.1 = old.1 ∧ new.2.1 = old.2.1 then wrapSub new.2.2.1 old.2.2.1 else 0,
   new.2.2.2 - old.2.2.2)

/-- `distances.sort()` on the two-element array of distance tuples. -/
def sortPair (p : I4 × I4) : I4 × I4 :=
  if tupLtB p.2 p.1 then (p.2, p.1) else (p.1, p.2)

/-- Lexicographic comparison of the sorted two-element arrays (`[_; 2]` Ord). -/
def pairLtB (p q : I4 × I4) : Bool :=
  if tupLtB p.1 q.1 then true
  else if p.1 = q.1 then tupLtB p.2 q.2
  else false

/-- One window of `tuple_windows()`: `(prev, curr, next)` catalog entries. -/
abbrev Window := (I4 × String) × (I4 × String) × (I4 × String)

/-- `tuple_windows()` over the ascending catalog iteration. -/
def windows3 : List (I4 × String) → List Window
  | a :: b :: c :: rest => (a, b, c) :: windows3 (b :: c :: rest)
  | _ => []

/-- `Iterator::min_by_key`: the first element minimising the key (a later
element replaces the current best only when its key is strictly smaller). -/
def minByKeyFirst (key : α → κ) (lt : κ → κ → Bool) : List α → Option α
  | [] => none
  | x :: xs =>
    match minByKeyFirst key lt xs with
    | none => some x
    | some y => if lt (key y) (key x) then some y else some x

/-- The sort key of a window in `delete_one`: the ascending-sorted pair of
`distance(prev, curr)` and `distance(curr, next)`. -/
def windowKey (w : Window) : I4 × I4 :=
  sortPair (distance w.1.1 w.2.1.1, distance w.2.1.1 w.2.2.1)

/-- The `match timestamps.len()` of `delete_one`, on the sorted catalog:
0 or 1 entries yield no victim, 2 entries yield the first (smallest-key) value,
3 or more yield the middle entry of the `min_by_key` window. -/
def selectVictim : List (I4 × String) → Option String
  | [] => none
  | [_] => none
  | [a, _] => some a.2
  | cat => (minByKeyFirst windowKey pairLtB (windows3 cat)).map (fun w => w.2.1.2)

/-- `delete_one` up to the filesystem deletion: build the catalog from the
directory listing, then select the victim filename. -/
def deleteOneNames (names : List String) : Except Error (Option String) :=
  (buildCatalog names).map selectVictim

/-! ## `dir_size`

A filesystem node: a regular file, a symlink (carrying the length of the link
object itself and, for the model, the tree it points at), or a directory.
`fs::symlink_metadata` and `DirEntry::metadata` never follow symlinks, so
`dir_size` only ever reads the link length of a symlink. -/

mutual

inductive FsEntry where
  | file (len : Nat)
  | symlink (len : Nat) (target : FsEntry)
  | dir (children : FsList)

inductive FsList where
  | nil
  | cons (hd : FsEntry) (tl : FsList)

end

/-- Directory children from a plain list (for writing concrete trees). -/
def FsList.ofL : List FsEntry → FsList
  | [] => .nil
  | c :: rest => .cons c (FsList.ofL rest)

mutual

/-- `dir_size(path)`: a directory sums its children, a non-directory path
contributes its own non-followed metadata length. -/
def dirSize : FsEntry → Nat
  | .file n => n
  | .symlink n _ => n
  | .dir cs => dirChildrenSize cs

/-- The `read_dir` loop of `dir_size`: `size_in_bytes += dir_size(entry.path())`
for a directory entry (`entry_metadata.is_dir()`), otherwise
`size_in_bytes += entry_metadata.len()` — for a symlink entry that is the
length of the link object, never of its target. -/
def dirChildrenSize : FsList → Nat
  | .nil => 0
  | .cons c rest =>
    (match c with
     | .dir cs => dirSize (.dir cs)
     | .file n => n
     | .symlink n _ => n) + dirChildrenSize rest

end

mutual

/-- Sum of the lengths of all regular files in a tree (symlink targets are not
part of the tree reached without following links). -/
def fileLenSum : FsEntry → Nat
  | .file n => n
  | .symlink _ _ => 0
  | .dir cs => fileLenSumList cs

def fileLenSumList : FsList → Nat
  | .nil => 0
  | .cons c rest => fileLenSum c + fileLenSumList rest

end

mutual

/-- The tree contains no symlink anywhere. -/
def noSymlinks : FsEntry → Bool
  | .file _ => true
  | .symlink _ _ => false
  | .dir cs => noSymlinksList cs

def noSymlinksList : FsList → Bool
  | .nil => true
  | .cons c rest => noSymlinks c && noSymlinksList rest

end

/-! ## Backup-root state

The stateful loops (`delete_one`, `make_room`, `compress_all`, `do_backup`)
act on the two-level layout `BACKUP_PATH/<target>/<snapshot>`.  A snapshot
entry is a name together with whether it is a directory (uncompressed) and its
on-disk size; the mount probe of the source is modelled by an `avail` field
that deletion credits with the deleted snapshot's size.  Loops take explicit
fuel; `none` means the fuel ran out before the loop finished. -/

structure Snap where
  name : String
  isDir : Bool
  size : Nat
deriving DecidableEq, Repr

structure BState where
  targets : List (String × List Snap)
  avail : Nat
deriving DecidableEq, Repr

/-- Events recorded by a run: a deletion by `delete_one` (with the target whose
catalog it acted on), a compression by `compress_all`, and the `rsync` mirror
step of `make_backup`. -/
inductive Ev where
  | deleted (target name : String)
  | compressed (target name : String)
  | mirrored
deriving DecidableEq, Repr

/-- `read_dir(BACKUP_PATH.join(world))`: the snapshot entries of one target. -/
def lookupTarget (st : BState) (w : String) : Option (List Snap) :=
  (st.targets.find? (fun p => p.1 == w)).map (fun p => p.2)

/-- Remove the first snapshot named `n` from a listing. -/
def removeSnap (n : String) : List Snap → List Snap
  | [] => []
  | s :: rest => if s.name == n then rest else s :: removeSnap n rest

def sizeOfSnap (n : String) (snaps : List Snap) : Nat :=
  ((snaps.find? (fun s => s.name == n)).map (fun s => s.size)).getD 0

/-- `delete_one(verbose, world)` on the state: list the world's backup
directory, build the catalog, pick the victim, and remove it (crediting
`avail` with its size).  A missing world directory is a `read_dir` I/O error
(`wheel::Error`). -/
def deleteOneSt (world : String) (st : BState) : Except Error (Option String × BState) :=
  match lookupTarget st world with
  | none => .error .wheel
  | some snaps =>
    match deleteOneNames (snaps.map (fun s => s.name)) with
    | .error e => .error e
    | .ok none => .ok (none, st)
    | .ok (some victim) =>
      .ok (some victim,
        { targets := st.targets.map
            (fun p => if p.1 == world then (p.1, removeSnap victim p.2) else p),
          avail := st.avail + sizeOfSnap victim snaps })

/-- `make_room(amount, verbose, world)`: delete backups of `world` until the
available space reaches `amount`; `Ok false` when `delete_one` runs out of
victims. -/
def makeRoom (world : String) (amount : Nat) : Nat → BState → Option (Except Error Bool × BState × List Ev)
  | 0, _ => none
  | fuel + 1, st =>
    if st.avail < amount then
      match deleteOneSt world st with
      | .error e => some (.error e, st, [])
      | .ok (none, st1) => some (.ok false, st1, [])
      | .ok (some n, st1) =>
        (makeRoom world amount fuel st1).map
          (fun r => (r.1, r.2.1, .deleted world n :: r.2.2))
    else some (.ok true, st, [])

/-- The scan of `compress_all` over one target's entries: keep the strictly
smallest directory-typed snapshot seen so far (the first one wins a tie). -/
def scanTarget (tname : String) (snaps : List Snap)
    (acc : Option (String × String × Nat)) : Option (String × String × Nat) :=
  snaps.foldl
    (fun acc s =>
      if s.isDir &&
          (match acc with
           | none => true
           | some (_, _, best) => s.size < best)
      then some (tname, s.name, s.size) else acc)
    acc

/-- The outer rescan of `compress_all`: the smallest uncompressed snapshot
across all targets (two nested `read_dir` loops, in listing order). -/
def scanSmallest (st : BState) : Option (String × String × Nat) :=
  st.targets.foldl (fun acc p => scanTarget p.1 p.2 acc) none

/-- `fs::exists` of a candidate path `BACKUP_PATH/<t>/<n>`. -/
def existsSnap (st : BState) (t n : String) : Bool :=
  match lookupTarget st t with
  | none => false
  | some snaps => snaps.any (fun s => s.name == n)

/-- Outcome of the inner while loop of `compress_all`. -/
inductive WaitRes where
  | ready
  | restart
  | failed (e : Error)
deriving DecidableEq, Repr

/-- The inner while loop of `compress_all`: while the available space is less
than the candidate's size, run `delete_one(verbose, world)` — failing with
`DiskSpace` when it yields no victim — and restart the outer scan when the
candidate path itself disappeared. -/
def waitRoom (world t n : String) (sz : Nat) : Nat → BState → Option (WaitRes × BState × List Ev)
  | 0, _ => none
  | fuel + 1, st =>
    if st.avail < sz then
      match deleteOneSt world st with
      | .error e => some (.failed e, st, [])
      | .ok (none, st1) => some (.failed .diskSpace, st1, [])
      | .ok (some vn, st1) =>
        if existsSnap st1 t n then
          (waitRoom world t n sz fuel st1).map
            (fun r => (r.1, r.2.1, .deleted world vn :: r.2.2))
        else some (.restart, st1, [.deleted world vn])
    else some (.ready, st, [])

/-- The `tar` invocation plus `remove_dir_all`: the candidate directory is
replaced by a `<name>.tar.gz` file whose size `g sz` is chosen by the external
archiver, and the freed directory size is credited to `avail`. -/
def compressSnap (g : Nat → Nat) (t n : String) (sz : Nat) (st : BState) : BState :=
  { targets := st.targets.map
      (fun p =>
        if p.1 == t then
          (p.1, p.2.map (fun s =>
            if s.name == n then { name := n ++ ".tar.gz", isDir := false, size := g sz } else s))
        else p),
    avail := st.avail + sz - g sz }

/-- `compress_all(verbose, world)`: rescan, wait for room (evicting via
`delete_one` on the configured `world`), compress the candidate, repeat until
no directory-typed snapshot remains. -/
def compressAll (g : Nat → Nat) (world : String) : Nat → BState → Option (Except Error Unit × BState × List Ev)
  | 0, _ => none
  | fuel + 1, st =>
    match scanSmallest st with
    | none => some (.ok (), st, [])
    | some (t, n, sz) =>
      match waitRoom world t n sz (fuel + 1) st with
      | none => none
      | some (.failed e, st1, evs) => some (.error e, st1, evs)
      | some (.restart, st1, evs) =>
        (compressAll g world fuel st1).map
          (fun r => (r.1, r.2.1, evs ++ r.2.2))
      | some (.ready, st1, evs) =>
        (compressAll g world fuel (compressSnap g t n sz st1)).map
          (fun r => (r.1, r.2.1, evs ++ .compressed t n :: r.2.2))

/-- `do_backup(verbose, world)`: make room for the live world size, then mirror
(`make_backup`, whose rsync/jar outcome is the external `mb`), then compress;
`make_room` returning `false` aborts with `DiskSpace` before any mirroring. -/
def doBackup (g : Nat → Nat) (mb : Except Error Unit) (world : String) (worldSize : Nat)
    (fuel : Nat) (st : BState) : Option (Except Error Unit × BState × List Ev) :=
  match makeRoom world worldSize fuel st with
  | none => none
  | some (.error e, st1, evs) => some (.error e, st1, evs)
  | some (.ok false, st1, evs) => some (.error .diskSpace, st1, evs)
  | some (.ok true, st1, evs) =>
    match mb with
    | .error e => some (.error e, st1, evs ++ [.mirrored])
    | .ok () =>
      (compressAll g world fuel st1).map
        (fun r => (r.1, r.2.1, evs ++ .mirrored :: r.2.2))

/-! ## `main` -/

/-- Steps of `main` around `do_backup`. -/
inductive MEv where
  | cmdSaveOff
  | cmdSaveAll
  | runBackup
  | cmdSaveOn
deriving DecidableEq, Repr

/-- `res.and(save_on_res)`: a backup failure wins over a save-on failure. -/
def resAnd : Except Error Unit → Except Error Unit → Except Error Unit
  | .error e, _ => .error e
  | .ok _, r => r

/-- `main`: `save-off`, `save-all`, the backup, then — whatever the backup
returned — the `save-on` attempt, reporting `res.and(save_on_res)`.  The
results of the four external steps are inputs; the returned list records which
steps were reached. -/
def mainModel (offR allR backupR onR : Except Error Unit) : List MEv × Except Error Unit :=
  match offR with
  | .error e => ([.cmdSaveOff], .error e)
  | .ok () =>
    match allR with
    | .error e => ([.cmdSaveOff, .cmdSaveAll], .error e)
    | .ok () =>
      ([.cmdSaveOff, .cmdSaveAll, .runBackup, .cmdSaveOn], resAnd backupR onR)

/-! ## Spec-side definitions

These follow the words of the specification (not the source), to be compared
with the source-derived definitions above. -/

/-- Spec side: the timestamp group of the grammar
`\d{4}-\d{2}-\d{2}_\d{2}-\d{2}-\d{2}`. -/
def TsGrammar (ts : List Char) : Prop :=
  ∃ y1 y2 y3 y4 m1 m2 d1 d2 h1 h2 i1 i2 s1 s2 : Char,
    ts = [y1, y2, y3, y4, '-', m1, m2, '-', d1, d2, '_', h1, h2, '-', i1, i2, '-', s1, s2] ∧
    y1.isDigit = true ∧ y2.isDigit = true ∧ y3.isDigit = true ∧ y4.isDigit = true ∧
    m1.isDigit = true ∧ m2.isDigit = true ∧ d1.isDigit = true ∧ d2.isDigit = true ∧
    h1.isDigit = true ∧ h2.isDigit = true ∧ i1.isDigit = true ∧ i2.isDigit = true ∧
    s1.isDigit = true ∧ s2.isDigit = true

/-- Spec side: a whole-name match of the grammar
`^(\d{4}-\d{2}-\d{2}_\d{2}-\d{2}-\d{2})_(.+?)(\.tar\.gz)?$`: a timestamp
group, an underscore, and a nonempty remainder in which `.` can match every
character (so no newline). -/
def NameMatch (name : String) (tsL rest : List Char) : Prop :=
  name.toList = tsL ++ '_' :: rest ∧ TsGrammar tsL ∧ rest ≠ [] ∧ ∀ c ∈ rest, c ≠ '\n'

/-- Spec side: the non-greedy version capture of a matching name fails to
parse — some dot-separated component of the capture is not an `i64`.  The
capture is the remainder with a final `.tar.gz` stripped whenever a nonempty
capture remains. -/
def VersionBad (rest : List Char) : Prop :=
  (∃ core, core ≠ [] ∧ rest = core ++ tarGzSuffix ∧ ∃ p ∈ splitDot core, parseI64 p = none) ∨
  ((¬ ∃ core, core ≠ [] ∧ rest = core ++ tarGzSuffix) ∧ ∃ p ∈ splitDot rest, parseI64 p = none)

/-- Spec side: a snapshot key or distance tuple under the lexicographic order
the spec prescribes: major first, then minor, then patch, then time. -/
abbrev Lex4 := ((Int ×ₗ Int) ×ₗ Int) ×ₗ Int

def toLex4 (x : I4) : Lex4 := toLex (toLex (toLex (x.1, x.2.1), x.2.2.1), x.2.2.2)

/-- Spec side (amended): `dist(a, b) = (Δmajor, Δminor if majors equal else 0,
Δpatch if majors and minors equal else 0, Δtimestamp)`, as a lexicographically
ordered tuple, with the three version differences computed in wrapping 64-bit
arithmetic as the release binary does. -/
def specDist (a b : I4) : Lex4 :=
  toLex4 (wrapSub b.1 a.1,
    if b.1 = a.1 then wrapSub b.2.1 a.2.1 else 0,
    if b.1 = a.1 ∧ b.2.1 = a.2.1 then wrapSub b.2.2.1 a.2.2.1 else 0,
    b.2.2.2 - a.2.2.2)

/-- Spec side: the window comparison key — the two distance tuples of the
window, sorted ascending, compared lexicographically as a pair. -/
def specWindowKey (w : Window) : Lex4 ×ₗ Lex4 :=
  let d1 := specDist w.1.1 w.2.1.1
  let d2 := specDist w.2.1.1 w.2.2.1
  toLex (min d1 d2, max d1 d2)

/-- The distance formula exactly as the original claim words it: plain
(unbounded) integer differences.  The code disagrees with this past the `i64`
range; kept only to state the counterexample. -/
def plainDist (a b : I4) : Lex4 :=
  toLex4 (b.1 - a.1,
    if b.1 = a.1 then b.2.1 - a.2.1 else 0,
    if b.1 = a.1 ∧ b.2.1 = a.2.1 then b.2.2.1 - a.2.2.1 else 0,
    b.2.2.2 - a.2.2.2)

/-- The window key of the original claim: sorted pair of plain-difference
tuples. -/
def plainWindowKey (w : Window) : Lex4 ×ₗ Lex4 :=
  let d1 := plainDist w.1.1 w.2.1.1
  let d2 := plainDist w.2.1.1 w.2.2.1
  toLex (min d1 d2, max d1 d2)

deriving instance DecidableEq for Except

/-! ## Concrete states used by witnesses and counterexamples -/

/-- Two targets: the compression candidate (the only directory-typed snapshot)
lives in target `zelda`, while the configured world is `wurstmineberg`. -/
def exCounterState : BState :=
  { targets :=
      [("zelda", [⟨"0001-01-02_00-00-00_1", true, 100⟩]),
       ("wurstmineberg",
        [⟨"0001-01-01_00-00-00_1.0.0.tar.gz", false, 50⟩,
         ⟨"0001-01-03_00-00-00_1.0.1.tar.gz", false, 40⟩])],
    avail := 60 }

/-- The configured world has a single snapshot left while the compression
candidate (in target `z`) does not fit in the available space. -/
def exDiskSpaceState : BState :=
  { targets :=
      [("w", [⟨"0001-01-01_00-00-00_1", false, 5⟩]),
       ("z", [⟨"0001-01-02_00-00-00_1", true, 50⟩])],
    avail := 0 }

/-- The eviction victim is the compression candidate itself. -/
def exRestartState : BState :=
  { targets :=
      [("w", [⟨"0001-01-01_00-00-00_1", true, 50⟩, ⟨"0001-01-02_00-00-00_2", false, 10⟩])],
    avail := 0 }

/-- `exRestartState` after the eviction deleted the candidate. -/
def exRestartStateAfter : BState :=
  { targets := [("w", [⟨"0001-01-02_00-00-00_2", false, 10⟩])], avail := 50 }

/-- One remaining snapshot and not enough room for the backup. -/
def exOneSnapState : BState :=
  { targets := [("w", [⟨"0001-01-01_00-00-00_1", true, 5⟩])], avail := 0 }

/-! ## Helper lemmas -/

theorem collectParsed_eq_none_iff (ps : List (List Char)) :
    collectParsed ps = none ↔ ∃ p ∈ ps, parseI64 p = none := by
  induction ps with
  | nil => simp [collectParsed]
  | cons p ps ih =>
    simp only [collectParsed]
    cases hp : parseI64 p with
    | none => simp [hp]
    | some v =>
      cases hps : collectParsed ps with
      | none => simp [hps, hp] at ih ⊢; exact ih
      | some vs => simp [hps, hp] at ih ⊢; exact ih

theorem insertSorted_length_le (k : I4) (v : String) (c : List (I4 × String)) :
    (insertSorted k v c).length ≤ c.length + 1 := by
  induction c with
  | nil => simp [insertSorted]
  | cons kv rest ih =>
    simp only [insertSorted]
    split
    · simp
    · split
      · simp
      · simpa using Nat.succ_le_succ ih

theorem buildCatalogAux_length_le (names : List String) :
    ∀ acc c, buildCatalogAux acc names = .ok c → c.length ≤ acc.length + names.length := by
  induction names with
  | nil => intro acc c h; simp [buildCatalogAux] at h; simp [← h]
  | cons n rest ih =>
    intro acc c h
    simp only [buildCatalogAux] at h
    cases hp : parseEntry n with
    | error e => simp [hp] at h
    | ok k =>
      rw [hp] at h
      have := ih _ _ h
      have h2 := insertSorted_length_le k n acc
      simp only [List.length_cons]
      omega

mutual

theorem dirSize_eq_fileLenSum : ∀ t, noSymlinks t = true → dirSize t = fileLenSum t
  | .file _, _ => rfl
  | .symlink _ tgt, h => by simp [noSymlinks] at h
  | .dir cs, h => by
    have hc := dirChildrenSize_eq_fileLenSumList cs (by simpa [noSymlinks] using h)
    simpa [dirSize, fileLenSum] using hc

theorem dirChildrenSize_eq_fileLenSumList :
    ∀ cs, noSymlinksList cs = true → dirChildrenSize cs = fileLenSumList cs
  | .nil, _ => rfl
  | .cons c rest, h => by
    have h1 : noSymlinks c = true ∧ noSymlinksList rest = true := by
      simpa [noSymlinksList, Bool.and_eq_true] using h
    have hr := dirChildrenSize_eq_fileLenSumList rest h1.2
    cases c with
    | file n => simp [dirChildrenSize, fileLenSumList, fileLenSum, hr]
    | symlink n tgt => simp [noSymlinks] at h1
    | dir cs2 =>
      have hd := dirSize_eq_fileLenSum (.dir cs2) h1.1
      simp [dirChildrenSize, fileLenSumList, hr, hd]

end

/-! ## C5: two snapshots -/

/-- C5: on a catalog of exactly 2 snapshots (in ascending key order, as the
`BTreeMap` iterates), the eviction policy selects the snapshot with the
smaller `SnapshotKey`, keeping the more advanced / more recent one. -/
theorem eviction_two_selects_smaller (k1 k2 : I4) (n1 n2 : String)
    (_hlt : tupLtB k1 k2 = true) :
    selectVictim [(k1, n1), (k2, n2)] = some n1 := rfl

theorem eviction_two_selects_smaller_witness :
    tupLtB (1, 0, 0, 5) (1, 0, 1, 3) = true ∧
      selectVictim [((1, 0, 0, 5), "a"), ((1, 0, 1, 3), "b")] = some "a" :=
  ⟨by decide, eviction_two_selects_smaller (1, 0, 0, 5) (1, 0, 1, 3) "a" "b" (by decide)⟩

/-! ## C6: zero or one snapshot -/

/-- C6: on a catalog of 0 or 1 snapshots the eviction policy returns no
victim, and `delete_one` leaves the state untouched (a single remaining
snapshot is never deleted). -/
theorem eviction_small_none :
    (∀ cat : List (I4 × String), cat.length ≤ 1 → selectVictim cat = none) ∧
    (∀ (world : String) (st : BState) (snaps : List Snap) (c : List (I4 × String)),
      lookupTarget st world = some snaps → snaps.length ≤ 1 →
      buildCatalog (snaps.map (fun s => s.name)) = .ok c →
      deleteOneSt world st = .ok (none, st)) := by
  have hsel : ∀ cat : List (I4 × String), cat.length ≤ 1 → selectVictim cat = none := by
    intro cat hlen
    match cat with
    | [] => rfl
    | [_] => rfl
    | _ :: _ :: _ => simp at hlen
  refine ⟨hsel, ?_⟩
  intro world st snaps c hlook hlen hcat
  have hcat2 : buildCatalogAux [] (snaps.map (fun s => s.name)) = .ok c := by
    simpa [buildCatalog] using hcat
  have hclen : c.length ≤ 1 := by
    have := buildCatalogAux_length_le (snaps.map (fun s => s.name)) [] c hcat2
    simpa using le_trans this (by simpa using hlen)
  simp [deleteOneSt, hlook, deleteOneNames, buildCatalog, hcat2, Except.map,
    hsel c hclen]

theorem eviction_small_none_witness :
    lookupTarget { targets := [("w", [⟨"0001-01-01_00-00-00_1", true, 5⟩])], avail := 0 } "w" =
        some [⟨"0001-01-01_00-00-00_1", true, 5⟩] ∧
      deleteOneSt "w" { targets := [("w", [⟨"0001-01-01_00-00-00_1", true, 5⟩])], avail := 0 } =
        .ok (none, { targets := [("w", [⟨"0001-01-01_00-00-00_1", true, 5⟩])], avail := 0 }) :=
  ⟨by decide,
    eviction_small_none.2 "w" _ [⟨"0001-01-01_00-00-00_1", true, 5⟩]
      [((1, 0, 0, 31622400), "0001-01-01_00-00-00_1")] (by decide) (by decide) (by decide)⟩

/-! ## C8: directory size accounting -/

/-- C8: on a symlink-free tree `dir_size` is the sum of all regular-file
lengths; a symlink contributes the length of the link object (for any target);
a non-directory path yields its own length; an empty directory yields 0. -/
theorem dir_size_spec :
    (∀ t, noSymlinks t = true → dirSize t = fileLenSum t) ∧
    (∀ (n : Nat) (tgt : FsEntry) (rest : FsList),
      dirSize (.symlink n tgt) = n ∧
        dirChildrenSize (.cons (.symlink n tgt) rest) = n + dirChildrenSize rest) ∧
    (∀ n : Nat, dirSize (.file n) = n) ∧
    dirSize (.dir .nil) = 0 :=
  ⟨dirSize_eq_fileLenSum, fun _ _ _ => ⟨rfl, rfl⟩, fun _ => rfl, rfl⟩

theorem dir_size_spec_witness :
    noSymlinks (.dir (.ofL [.file 3, .dir (.ofL [.file 4]), .file 5])) = true ∧
      dirSize (.dir (.ofL [.file 3, .dir (.ofL [.file 4]), .file 5])) =
        fileLenSum (.dir (.ofL [.file 3, .dir (.ofL [.file 4]), .file 5])) :=
  ⟨by decide, dir_size_spec.1 _ (by decide)⟩

/-! ## C9: save-on is always attempted, backup errors win -/

/-- C9: in every run of `main` that reaches the backup, the `save-on` command
is attempted regardless of the backup's outcome, and when both the backup and
the `save-on` attempt fail, the reported error is the backup's. -/
theorem main_resume_preference (offR allR bR onR : Except Error Unit)
    (hoff : offR = .ok ()) (hall : allR = .ok ()) :
    MEv.cmdSaveOn ∈ (mainModel offR allR bR onR).1 ∧
      (∀ e1 e2 : Error, bR = .error e1 → onR = .error e2 →
        (mainModel offR allR bR onR).2 = .error e1) := by
  subst hoff hall
  constructor
  · simp [mainModel]
  · intro e1 e2 h1 h2
    subst h1 h2
    simp [mainModel, resAnd]

theorem main_resume_preference_witness :
    MEv.cmdSaveOn ∈
        (mainModel (.ok ()) (.ok ()) (.error .diskSpace) (.error .minecraft)).1 ∧
      (∀ e1 e2 : Error, Except.error (ε := Error) (α := Unit) .diskSpace = .error e1 →
        Except.error (ε := Error) (α := Unit) .minecraft = .error e2 →
        (mainModel (.ok ()) (.ok ()) (.error .diskSpace) (.error .minecraft)).2 = .error e1) :=
  main_resume_preference (.ok ()) (.ok ()) (.error .diskSpace) (.error .minecraft) rfl rfl

/-! ## C10: invalid timestamps are a distinct error -/

/-- C10: an entry whose name matches the regex and whose version parses, but
whose timestamp digits are not a valid calendar datetime, fails with the
chrono parse error — a different error kind than the filename-format error. -/
theorem invalid_timestamp_chrono_error (name ts ver : String) (vs : List Int)
    (hm : parseFilename name = some (ts, ver))
    (hv : collectParsed (splitDot ver.toList) = some vs)
    (ht : chronoParseTs ts = none) :
    parseEntry name = .error .chronoParse ∧ Error.chronoParse ≠ Error.filenameFormat := by
  refine ⟨?_, by decide⟩
  simp only [String.toList] at hv
  simp [parseEntry, hm, hv, ht]

theorem invalid_timestamp_chrono_error_witness :
    parseFilename "0001-13-01_00-00-00_1" = some ("0001-13-01_00-00-00", "1") ∧
      parseEntry "0001-13-01_00-00-00_1" = .error .chronoParse :=
  ⟨by decide,
    (invalid_timestamp_chrono_error "0001-13-01_00-00-00_1" "0001-13-01_00-00-00" "1" [1]
      (by decide) (by decide) (by decide)).1⟩

/-! ## Event-trace lemmas for the fueled loops -/

theorem makeRoom_events (world : String) (amount : Nat) :
    ∀ (fuel : Nat) (st : BState) (r : Except Error Bool) (st1 : BState) (evs : List Ev),
      makeRoom world amount fuel st = some (r, st1, evs) →
      ∀ e ∈ evs, ∃ vn, e = Ev.deleted world vn := by
  intro fuel
  induction fuel with
  | zero => intro st r st1 evs h; simp [makeRoom] at h
  | succ fuel ih =>
    intro st r st1 evs h
    by_cases hav : st.avail < amount
    · cases hdel : deleteOneSt world st with
      | error e =>
        simp only [makeRoom, if_pos hav, hdel, Option.some.injEq, Prod.mk.injEq] at h
        simp [← h.2.2]
      | ok p =>
        obtain ⟨ov, st2⟩ := p
        cases ov with
        | none =>
          simp only [makeRoom, if_pos hav, hdel, Option.some.injEq, Prod.mk.injEq] at h
          simp [← h.2.2]
        | some n =>
          cases hrec : makeRoom world amount fuel st2 with
          | none => simp [makeRoom, if_pos hav, hdel, hrec] at h
          | some r2 =>
            obtain ⟨r2a, st2b, evs2⟩ := r2
            simp only [makeRoom, if_pos hav, hdel, hrec, Option.map_some',
              Option.some.injEq, Prod.mk.injEq] at h
            intro e he
            rw [← h.2.2] at he
            rcases List.mem_cons.1 he with rfl | he2
            · exact ⟨n, rfl⟩
            · exact ih st2 r2a st2b evs2 hrec e he2
    · simp only [makeRoom, if_neg hav, Option.some.injEq, Prod.mk.injEq] at h
      simp [← h.2.2]

theorem waitRoom_events (world t n : String) (sz : Nat) :
    ∀ (fuel : Nat) (st : BState) (r : WaitRes) (st1 : BState) (evs : List Ev),
      waitRoom world t n sz fuel st = some (r, st1, evs) →
      ∀ e ∈ evs, ∃ vn, e = Ev.deleted world vn := by
  intro fuel
  induction fuel with
  | zero => intro st r st1 evs h; simp [waitRoom] at h
  | succ fuel ih =>
    intro st r st1 evs h
    by_cases hav : st.avail < sz
    · cases hdel : deleteOneSt world st with
      | error e =>
        simp only [waitRoom, if_pos hav, hdel, Option.some.injEq, Prod.mk.injEq] at h
        simp [← h.2.2]
      | ok p =>
        obtain ⟨ov, st2⟩ := p
        cases ov with
        | none =>
          simp only [waitRoom, if_pos hav, hdel, Option.some.injEq, Prod.mk.injEq] at h
          simp [← h.2.2]
        | some vn =>
          by_cases hex : existsSnap st2 t n = true
          · cases hrec : waitRoom world t n sz fuel st2 with
            | none => simp [waitRoom, if_pos hav, hdel, hex, hrec] at h
            | some r2 =>
              obtain ⟨r2a, st2b, evs2⟩ := r2
              simp only [waitRoom, if_pos hav, hdel, hex, if_pos, hrec, Option.map_some',
                Option.some.injEq, Prod.mk.injEq] at h
              intro e he
              rw [← h.2.2] at he
              rcases List.mem_cons.1 he with rfl | he2
              · exact ⟨vn, rfl⟩
              · exact ih st2 r2a st2b evs2 hrec e he2
          · rw [Bool.not_eq_true] at hex
            simp only [waitRoom, if_pos hav, hdel, hex, Bool.false_eq_true, if_false,
              Option.some.injEq, Prod.mk.injEq] at h
            intro e he
            rw [← h.2.2] at he
            rcases List.mem_cons.1 he with rfl | he2
            · exact ⟨vn, rfl⟩
            · simp at he2
    · simp only [waitRoom, if_neg hav, Option.some.injEq, Prod.mk.injEq] at h
      simp [← h.2.2]

theorem compressAll_events (g : Nat → Nat) (world : String) :
    ∀ (fuel : Nat) (st : BState) (r : Except Error Unit) (st1 : BState) (evs : List Ev),
      compressAll g world fuel st = some (r, st1, evs) →
      ∀ t n, Ev.deleted t n ∈ evs → t = world := by
  intro fuel
  induction fuel with
  | zero => intro st r st1 evs h; simp [compressAll] at h
  | succ fuel ih =>
    intro st r st1 evs h
    cases hscan : scanSmallest st with
    | none =>
      simp only [compressAll, hscan, Option.some.injEq, Prod.mk.injEq] at h
      simp [← h.2.2]
    | some cand =>
      obtain ⟨t0, n0, sz0⟩ := cand
      cases hw : waitRoom world t0 n0 sz0 (fuel + 1) st with
      | none => simp [compressAll, hscan, hw] at h
      | some w =>
        obtain ⟨wres, stA, evsA⟩ := w
        have hAev := waitRoom_events world t0 n0 sz0 (fuel + 1) st wres stA evsA hw
        cases wres with
        | failed e =>
          simp only [compressAll, hscan, hw, Option.some.injEq, Prod.mk.injEq] at h
          intro t n hmem
          rw [← h.2.2] at hmem
          obtain ⟨vn, hvn⟩ := hAev _ hmem
          exact (Ev.deleted.inj hvn).1
        | restart =>
          cases hrec : compressAll g world fuel stA with
          | none => simp [compressAll, hscan, hw, hrec] at h
          | some r2 =>
            obtain ⟨r2a, st2b, evs2⟩ := r2
            simp only [compressAll, hscan, hw, hrec, Option.map_some',
              Option.some.injEq, Prod.mk.injEq] at h
            intro t n hmem
            rw [← h.2.2] at hmem
            rcases List.mem_append.1 hmem with hA | hB
            · obtain ⟨vn, hvn⟩ := hAev _ hA
              exact (Ev.deleted.inj hvn).1
            · exact ih stA r2a st2b evs2 hrec t n hB
        | ready =>
          cases hrec : compressAll g world fuel (compressSnap g t0 n0 sz0 stA) with
          | none => simp [compressAll, hscan, hw, hrec] at h
          | some r2 =>
            obtain ⟨r2a, st2b, evs2⟩ := r2
            simp only [compressAll, hscan, hw, hrec, Option.map_some',
              Option.some.injEq, Prod.mk.injEq] at h
            intro t n hmem
            rw [← h.2.2] at hmem
            rcases List.mem_append.1 hmem with hA | hB
            · obtain ⟨vn, hvn⟩ := hAev _ hA
              exact (Ev.deleted.inj hvn).1
            · rcases List.mem_cons.1 hB with heq | hB2
              · simp at heq
              · exact ih _ r2a st2b evs2 hrec t n hB2

/-! ## C7: exhausted eviction aborts the backup -/

/-- C7: when `make_room` exhausts its eviction candidates with the available
space still below the required world size, `do_backup` fails with the
disk-space error and the mirroring step (`make_backup`) is never reached. -/
theorem makeroom_exhausted_diskspace (g : Nat → Nat) (mb : Except Error Unit)
    (world : String) (ws fuel : Nat) (st st1 : BState) (evs : List Ev)
    (h : makeRoom world ws fuel st = some (.ok false, st1, evs)) :
    doBackup g mb world ws fuel st = some (.error .diskSpace, st1, evs) ∧
      Ev.mirrored ∉ evs := by
  refine ⟨by simp [doBackup, h], ?_⟩
  intro hmem
  obtain ⟨vn, hvn⟩ := makeRoom_events world ws fuel st (.ok false) st1 evs h _ hmem
  exact Ev.noConfusion hvn

theorem makeroom_exhausted_diskspace_witness :
    makeRoom "w" 10 1 exOneSnapState = some (.ok false, exOneSnapState, []) ∧
      doBackup (fun b => b) (.ok ()) "w" 10 1 exOneSnapState =
        some (.error .diskSpace, exOneSnapState, []) ∧
      Ev.mirrored ∉ ([] : List Ev) :=
  ⟨by decide,
    makeroom_exhausted_diskspace (fun b => b) (.ok ()) "w" 10 1 exOneSnapState
      exOneSnapState [] (by decide)⟩

/-! ## C1: the eviction loop of `compress_all` -/

/-- C1 (counterexample): the claim says the loop evicts from the catalog of
the target that owns the candidate.  Here the candidate (the only
directory-typed snapshot, too large for the available space) is owned by
`zelda`, whose catalog holds a single snapshot — under the claim, eviction
would yield no victim and the run would fail with the disk-space error.  The
code instead evicts from the catalog of the configured world `wurstmineberg`
(a different target) and the run succeeds. -/
theorem compress_eviction_counterexample :
    scanSmallest exCounterState = some ("zelda", "0001-01-02_00-00-00_1", 100) ∧
      exCounterState.avail < 100 ∧
      compressAll (fun sz => sz / 10) "wurstmineberg" 3 exCounterState =
        some (.ok (),
          { targets :=
              [("zelda", [⟨"0001-01-02_00-00-00_1.tar.gz", false, 10⟩]),
               ("wurstmineberg", [⟨"0001-01-03_00-00-00_1.0.1.tar.gz", false, 40⟩])],
            avail := 200 },
          [.deleted "wurstmineberg" "0001-01-01_00-00-00_1.0.0.tar.gz",
           .compressed "zelda" "0001-01-02_00-00-00_1"]) ∧
      ("wurstmineberg" : String) ≠ "zelda" := by
  refine ⟨by decide, by decide, by decide, by decide⟩

/-- C1 (amended): while waiting for room, the loop invokes the eviction
policy against the catalog of the **configured world** (the `world` argument
of `compress_all`), not necessarily the target that owns the candidate: every
deletion of a run names the configured world.  If eviction yields no victim
the loop fails with the disk-space error, and if the candidate itself no
longer exists after an eviction the loop abandons it and restarts the outer
scan. -/
theorem compress_eviction_policy (g : Nat → Nat) (world : String) :
    (∀ (fuel : Nat) (st : BState) (r : Except Error Unit) (st1 : BState) (evs : List Ev),
      compressAll g world fuel st = some (r, st1, evs) →
      ∀ t n, Ev.deleted t n ∈ evs → t = world) ∧
    (∀ (fuel : Nat) (st stX : BState) (t n : String) (sz : Nat),
      scanSmallest st = some (t, n, sz) → st.avail < sz →
      deleteOneSt world st = .ok (none, stX) →
      compressAll g world (fuel + 1) st = some (.error .diskSpace, stX, [])) ∧
    (∀ (fuel : Nat) (st st1 : BState) (t n vn : String) (sz : Nat),
      scanSmallest st = some (t, n, sz) → st.avail < sz →
      deleteOneSt world st = .ok (some vn, st1) → existsSnap st1 t n = false →
      compressAll g world (fuel + 1) st =
        (compressAll g world fuel st1).map
          (fun r => (r.1, r.2.1, Ev.deleted world vn :: r.2.2))) := by
  refine ⟨compressAll_events g world, ?_, ?_⟩
  · intro fuel st stX t n sz hscan hav hdel
    simp [compressAll, hscan, waitRoom, hav, hdel]
  · intro fuel st st1 t n vn sz hscan hav hdel hex
    simp [compressAll, hscan, waitRoom, hav, hdel, hex]

theorem compress_eviction_policy_witness :
    (("w" : String) = "w") ∧
      compressAll (fun sz => sz) "w" 2 exDiskSpaceState =
        some (.error .diskSpace, exDiskSpaceState, []) ∧
      compressAll (fun sz => sz) "w" 2 exRestartState =
        (compressAll (fun sz => sz) "w" 1 exRestartStateAfter).map
          (fun r => (r.1, r.2.1, Ev.deleted "w" "0001-01-01_00-00-00_1" :: r.2.2)) :=
  ⟨(compress_eviction_policy (fun sz => sz) "w").1 2 exRestartState (.ok ())
      exRestartStateAfter [.deleted "w" "0001-01-01_00-00-00_1"] (by decide)
      "w" "0001-01-01_00-00-00_1" (by decide),
    (compress_eviction_policy (fun sz => sz) "w").2.1 1 exDiskSpaceState
      exDiskSpaceState "z" "0001-01-02_00-00-00_1" 50 (by decide) (by decide) (by decide),
    (compress_eviction_policy (fun sz => sz) "w").2.2 1 exRestartState
      exRestartStateAfter "w" "0001-01-01_00-00-00_1" "0001-01-01_00-00-00_1" 50
      (by decide) (by decide) (by decide) (by decide)⟩

/-! ## Bridging the Rust tuple order with the spec-side lexicographic order -/

theorem tupLtB_iff (x y : I4) : tupLtB x y = true ↔ toLex4 x < toLex4 y := by
  unfold tupLtB toLex4
  split_ifs with h1 h2 h3 h4 h5 h6 <;>
    simp only [Prod.Lex.lt_iff, toLex_inj, Prod.mk.injEq, decide_eq_true_eq,
      eq_self_iff_true, true_iff, Bool.false_eq_true, false_iff] <;>
    omega

theorem toLex4_inj (x y : I4) : toLex4 x = toLex4 y ↔ x = y := by
  unfold toLex4
  simp only [toLex_inj, Prod.mk.injEq, Prod.ext_iff]
  omega

theorem pairLtB_iff (u v : I4 × I4) :
    pairLtB u v = true ↔
      toLex (toLex4 u.1, toLex4 u.2) < toLex (toLex4 v.1, toLex4 v.2) := by
  unfold pairLtB
  rw [Prod.Lex.lt_iff]
  split_ifs with h1 h2
  · simp only [true_iff]
    exact Or.inl ((tupLtB_iff _ _).1 h1)
  · constructor
    · intro h
      exact Or.inr ⟨by rw [h2], (tupLtB_iff _ _).1 h⟩
    · rintro (h | ⟨-, h⟩)
      · rw [h2] at h
        exact absurd h (lt_irrefl _)
      · exact (tupLtB_iff _ _).2 h
  · simp only [false_iff]
    rintro (h | ⟨heq, -⟩)
    · exact h1 ((tupLtB_iff _ _).2 h)
    · exact h2 ((toLex4_inj _ _).1 heq)

theorem sortPair_minmax (d1 d2 : I4) :
    toLex4 (sortPair (d1, d2)).1 = min (toLex4 d1) (toLex4 d2) ∧
      toLex4 (sortPair (d1, d2)).2 = max (toLex4 d1) (toLex4 d2) := by
  unfold sortPair
  by_cases h : tupLtB d2 d1 = true
  · rw [if_pos h]
    have hlt := (tupLtB_iff _ _).1 h
    exact ⟨(min_eq_right (le_of_lt hlt)).symm, (max_eq_left (le_of_lt hlt)).symm⟩
  · rw [if_neg h]
    have hle : toLex4 d1 ≤ toLex4 d2 :=
      not_lt.1 (fun hlt => h ((tupLtB_iff _ _).2 hlt))
    exact ⟨(min_eq_left hle).symm, (max_eq_right hle).symm⟩

theorem specWindowKey_eq (w : Window) :
    specWindowKey w = toLex (toLex4 (windowKey w).1, toLex4 (windowKey w).2) := by
  obtain ⟨h1, h2⟩ := sortPair_minmax (distance w.1.1 w.2.1.1) (distance w.2.1.1 w.2.2.1)
  show toLex (min (specDist w.1.1 w.2.1.1) (specDist w.2.1.1 w.2.2.1),
        max (specDist w.1.1 w.2.1.1) (specDist w.2.1.1 w.2.2.1)) =
      toLex (toLex4 (sortPair (distance w.1.1 w.2.1.1, distance w.2.1.1 w.2.2.1)).1,
        toLex4 (sortPair (distance w.1.1 w.2.1.1, distance w.2.1.1 w.2.2.1)).2)
  rw [h1, h2]
  rfl

theorem minByKeyFirst_eq_argmin {α κ β : Type _} [LinearOrder β]
    (key : α → κ) (lt : κ → κ → Bool) (f : α → β)
    (hiff : ∀ a b, lt (key a) (key b) = true ↔ f a < f b) :
    ∀ l : List α, minByKeyFirst key lt l = List.argmin f l := by
  intro l
  induction l with
  | nil => rfl
  | cons x xs ih =>
    rw [List.argmin_cons]
    simp only [minByKeyFirst]
    rw [ih]
    cases List.argmin f xs with
    | none => rfl
    | some y =>
      show (if lt (key y) (key x) = true then some y else some x) =
        (if f y < f x then some y else some x)
      by_cases hy : f y < f x
      · rw [if_pos ((hiff y x).2 hy), if_pos hy]
      · rw [if_neg (fun hc => hy ((hiff y x).1 hc)), if_neg hy]

/-! ## C4: the window minimiser -/

/-- C4 (counterexample): the claim computes the distance fields as plain
integer differences, but the source subtracts `i64`s, which wrap in a release
build (and panic in a debug build).  All four names below are legal, and the
major difference `0 - (-2^63)` overflows: the code (wrapping) evicts the
second snapshot, while the claim's plain-difference minimiser names the
third. -/
theorem eviction_window_counterexample :
    deleteOneNames
        ["0001-01-01_00-00-00_-9223372036854775808", "0001-01-01_01-00-00_0",
         "0001-01-01_02-00-00_1", "0001-01-01_03-00-00_2"] =
      .ok (some "0001-01-01_01-00-00_0") ∧
    selectVictim
        [((-(2 ^ 63), 0, 0, 31622400), "0001-01-01_00-00-00_-9223372036854775808"),
         ((0, 0, 0, 31626000), "0001-01-01_01-00-00_0"),
         ((1, 0, 0, 31629600), "0001-01-01_02-00-00_1"),
         ((2, 0, 0, 31633200), "0001-01-01_03-00-00_2")] =
      some "0001-01-01_01-00-00_0" ∧
    (List.argmin plainWindowKey
        (windows3
          [((-(2 ^ 63), 0, 0, 31622400), "0001-01-01_00-00-00_-9223372036854775808"),
           ((0, 0, 0, 31626000), "0001-01-01_01-00-00_0"),
           ((1, 0, 0, 31629600), "0001-01-01_02-00-00_1"),
           ((2, 0, 0, 31633200), "0001-01-01_03-00-00_2")])).map (fun w => w.2.1.2) =
      some "0001-01-01_02-00-00_1" ∧
    ("0001-01-01_01-00-00_0" : String) ≠ "0001-01-01_02-00-00_1" :=
  ⟨by decide, by decide, by decide, by decide⟩

/-- C4 (amended): on a catalog of 3 or more snapshots (in ascending key
order), the eviction victim is the middle element of the first
consecutive-triple window minimising the ascending-sorted pair of distance
tuples — the version fields of a distance computed by wrapping 64-bit
subtraction as in a release build, the time field as a plain duration — where
the pair and the tuples are compared lexicographically (major diff first, then
minor, then patch, then time).  `List.argmin` returns the first element
attaining the minimum of the spec-side key. -/
theorem eviction_window_minimizer (cat : List (I4 × String)) (h3 : 3 ≤ cat.length) :
    selectVictim cat =
      (List.argmin specWindowKey (windows3 cat)).map (fun w => w.2.1.2) := by
  have hbr : ∀ w1 w2 : Window,
      pairLtB (windowKey w1) (windowKey w2) = true ↔
        specWindowKey w1 < specWindowKey w2 := by
    intro w1 w2
    rw [specWindowKey_eq, specWindowKey_eq, pairLtB_iff]
  match cat, h3 with
  | a :: b :: c :: rest, _ =>
    show (minByKeyFirst windowKey pairLtB (windows3 (a :: b :: c :: rest))).map
        (fun w => w.2.1.2) = _
    rw [minByKeyFirst_eq_argmin windowKey pairLtB specWindowKey hbr]

theorem eviction_window_minimizer_witness :
    3 ≤ ([((1, 0, 0, 0), "a"), ((1, 0, 0, 5), "b"), ((2, 0, 0, 7), "c")] :
        List (I4 × String)).length ∧
      selectVictim [((1, 0, 0, 0), "a"), ((1, 0, 0, 5), "b"), ((2, 0, 0, 7), "c")] =
        (List.argmin specWindowKey
            (windows3 [((1, 0, 0, 0), "a"), ((1, 0, 0, 5), "b"), ((2, 0, 0, 7), "c")])).map
          (fun w => w.2.1.2) :=
  ⟨by decide,
    eviction_window_minimizer [((1, 0, 0, 0), "a"), ((1, 0, 0, 5), "b"), ((2, 0, 0, 7), "c")]
      (by decide)⟩

/-! ## C3: only interior snapshots are evicted -/

theorem minByKeyFirst_mem {α κ : Type _} (key : α → κ) (lt : κ → κ → Bool) :
    ∀ (l : List α) (x : α), minByKeyFirst key lt l = some x → x ∈ l := by
  intro l
  induction l with
  | nil => intro x h; simp [minByKeyFirst] at h
  | cons a as ih =>
    intro x h
    simp only [minByKeyFirst] at h
    cases hrec : minByKeyFirst key lt as with
    | none =>
      rw [hrec] at h
      obtain rfl : a = x := Option.some.inj h
      exact List.mem_cons_self a as
    | some y =>
      rw [hrec] at h
      dsimp only at h
      by_cases hlt : lt (key y) (key a) = true
      · rw [if_pos hlt] at h
        obtain rfl : y = x := Option.some.inj h
        exact List.mem_cons_of_mem a (ih y hrec)
      · rw [if_neg hlt] at h
        obtain rfl : a = x := Option.some.inj h
        exact List.mem_cons_self a as

theorem windows3_mem :
    ∀ (l : List (I4 × String)) (w : Window),
      w ∈ windows3 l → ∃ l1 l2, l = l1 ++ w.1 :: w.2.1 :: w.2.2 :: l2
  | [], w, hw => absurd hw (List.not_mem_nil w)
  | [_], w, hw => absurd hw (List.not_mem_nil w)
  | [_, _], w, hw => absurd hw (List.not_mem_nil w)
  | a :: b :: c :: rest, w, hw => by
    rcases List.mem_cons.1 hw with rfl | hw2
    · exact ⟨[], rest, rfl⟩
    · obtain ⟨l1, l2, hl⟩ := windows3_mem (b :: c :: rest) w hw2
      exact ⟨a :: l1, l2, by rw [List.cons_append, ← hl]⟩

/-- C3: on a catalog of 3 or more snapshots in strictly ascending key order,
the eviction victim sits strictly inside the listing — it has a predecessor
and a successor — and its key is strictly above the head's (the global
minimum) and strictly below the last's (the global maximum), so the oldest
and newest snapshots are never selected. -/
theorem eviction_interior_only (cat : List (I4 × String)) (h3 : 3 ≤ cat.length)
    (hs : cat.Pairwise (fun a b => tupLtB a.1 b.1 = true)) (n : String)
    (hv : selectVictim cat = some n) :
    ∃ pre e suf, cat = pre ++ e :: suf ∧ pre ≠ [] ∧ suf ≠ [] ∧ e.2 = n ∧
      (∀ hd, cat.head? = some hd → tupLtB hd.1 e.1 = true) ∧
      (∀ lst, cat.getLast? = some lst → tupLtB e.1 lst.1 = true) := by
  match cat, h3, hs, hv with
  | a :: b :: c :: rest, _, hs, hv =>
    have hv2 : (minByKeyFirst windowKey pairLtB (windows3 (a :: b :: c :: rest))).map
        (fun w => w.2.1.2) = some n := hv
    obtain ⟨w, hw, hwn⟩ := Option.map_eq_some'.1 hv2
    have hmem := minByKeyFirst_mem windowKey pairLtB _ w hw
    obtain ⟨l1, l2, hl⟩ := windows3_mem _ w hmem
    refine ⟨l1 ++ [w.1], w.2.1, w.2.2 :: l2, by simpa using hl, by simp, by simp, hwn, ?_, ?_⟩
    · intro hd hhd
      have hmem2 : w.2.1 ∈ (a :: b :: c :: rest).tail := by
        rw [hl]
        cases l1 with
        | nil => simp
        | cons p l1t => simp
      rw [hl] at hhd hs
      cases l1 with
      | nil =>
        simp only [List.nil_append, List.head?_cons, Option.some.injEq] at hhd
        subst hhd
        exact (List.pairwise_cons.1 hs).1 w.2.1 (by simp)
      | cons p l1t =>
        simp only [List.cons_append, List.head?_cons, Option.some.injEq] at hhd
        subst hhd
        exact (List.pairwise_cons.1 hs).1 w.2.1 (by simp)
    · intro lst hlst
      rw [hl] at hlst hs
      have hsub : (w.2.1 :: w.2.2 :: l2).Sublist (l1 ++ w.1 :: w.2.1 :: w.2.2 :: l2) :=
        (List.sublist_cons_self w.1 (w.2.1 :: w.2.2 :: l2)).trans
          (List.sublist_append_right l1 _)
      have hp2 := List.pairwise_cons.1 (hs.sublist hsub)
      rw [List.getLast?_append_cons, List.getLast?_cons_cons, List.getLast?_cons_cons] at hlst
      have hlmem : lst ∈ w.2.2 :: l2 := by
        obtain ⟨hne, heq⟩ := List.mem_getLast?_eq_getLast (Option.mem_def.2 hlst)
        exact heq ▸ List.getLast_mem hne
      exact hp2.1 lst hlmem

theorem eviction_interior_only_witness :
    ∃ pre e suf,
      ([((1, 0, 0, 0), "a"), ((1, 0, 0, 5), "b"), ((2, 0, 0, 7), "c")] : List (I4 × String)) =
          pre ++ e :: suf ∧ pre ≠ [] ∧ suf ≠ [] ∧ e.2 = "b" ∧
        (∀ hd, ([((1, 0, 0, 0), "a"), ((1, 0, 0, 5), "b"), ((2, 0, 0, 7), "c")] :
            List (I4 × String)).head? = some hd → tupLtB hd.1 e.1 = true) ∧
        (∀ lst, ([((1, 0, 0, 0), "a"), ((1, 0, 0, 5), "b"), ((2, 0, 0, 7), "c")] :
            List (I4 × String)).getLast? = some lst → tupLtB e.1 lst.1 = true) :=
  eviction_interior_only [((1, 0, 0, 0), "a"), ((1, 0, 0, 5), "b"), ((2, 0, 0, 7), "c")]
    (by decide) (by decide) "b" (by decide)

/-! ## C2: the filename-format error -/

theorem tsShapeOK_iff (l : List Char) : tsShapeOK l = true ↔ TsGrammar l := by
  unfold tsShapeOK
  split
  next y1 y2 y3 y4 a m1 m2 b d1 d2 c hh1 hh2 dd i1 i2 e s1 s2 =>
    unfold TsGrammar
    simp only [Bool.and_eq_true, beq_iff_eq]
    constructor
    · intro h
      refine ⟨y1, y2, y3, y4, m1, m2, d1, d2, hh1, hh2, i1, i2, s1, s2, ?_, ?_, ?_, ?_,
        ?_, ?_, ?_, ?_, ?_, ?_, ?_, ?_, ?_, ?_, ?_⟩ <;> simp_all
    · rintro ⟨y1q, y2q, y3q, y4q, m1q, m2q, d1q, d2q, h1q, h2q, i1q, i2q, s1q, s2q, heq, hd⟩
      simp only [List.cons.injEq, and_true] at heq
      simp_all
  next hno =>
    simp only [Bool.false_eq_true, false_iff]
    rintro ⟨y1, y2, y3, y4, m1, m2, d1, d2, h1, h2, i1, i2, s1, s2, heq, -⟩
    exact hno y1 y2 y3 y4 '-' m1 m2 '-' d1 d2 '_' h1 h2 '-' i1 i2 '-' s1 s2 heq

theorem tsGrammar_length (l : List Char) (h : TsGrammar l) : l.length = 19 := by
  obtain ⟨_, _, _, _, _, _, _, _, _, _, _, _, _, _, rfl, -⟩ := h
  rfl

theorem versionCapture_append_suffix (core : List Char) (h : core ≠ []) :
    versionCapture (core ++ tarGzSuffix) = core := by
  have hlen : (core ++ tarGzSuffix).length = core.length + 7 := by simp [tarGzSuffix]
  have hcpos : 0 < core.length := List.length_pos.2 h
  have h7 : 7 < (core ++ tarGzSuffix).length := by omega
  have hsub : (core ++ tarGzSuffix).length - 7 = core.length := by omega
  unfold versionCapture
  rw [if_pos ⟨h7, by rw [hsub]; exact List.drop_left core tarGzSuffix⟩, hsub]
  exact List.take_left core tarGzSuffix

theorem versionCapture_no_suffix (rest : List Char)
    (h : ¬ ∃ core, core ≠ [] ∧ rest = core ++ tarGzSuffix) :
    versionCapture rest = rest := by
  unfold versionCapture
  rw [if_neg]
  rintro ⟨h7, hdrop⟩
  refine h ⟨rest.take (rest.length - 7), ?_, ?_⟩
  · have hl : (rest.take (rest.length - 7)).length = rest.length - 7 := by
      rw [List.length_take]; omega
    intro hnil
    rw [hnil] at hl
    simp at hl
    omega
  · conv_lhs => rw [← List.take_append_drop (rest.length - 7) rest]
    rw [hdrop]

theorem versionBad_iff_capture (rest : List Char) :
    VersionBad rest ↔ ∃ p ∈ splitDot (versionCapture rest), parseI64 p = none := by
  by_cases hdec : ∃ core, core ≠ [] ∧ rest = core ++ tarGzSuffix
  · obtain ⟨core, hcne, rfl⟩ := hdec
    rw [versionCapture_append_suffix core hcne]
    constructor
    · rintro (⟨core2, hc2, heq, hex⟩ | ⟨hno, hex⟩)
      · obtain rfl : core = core2 := List.append_cancel_right heq
        exact hex
      · exact absurd ⟨core, hcne, rfl⟩ hno
    · intro hex
      exact Or.inl ⟨core, hcne, rfl, hex⟩
  · rw [versionCapture_no_suffix rest hdec]
    constructor
    · rintro (⟨core, hc, heq, hex⟩ | ⟨-, hex⟩)
      · exact absurd ⟨core, hc, heq⟩ hdec
      · exact hex
    · intro hex
      exact Or.inr ⟨hdec, hex⟩

theorem parseFilename_of_match (name : String) (tsL rest : List Char)
    (h : NameMatch name tsL rest) :
    parseFilename name = some (String.mk tsL, String.mk (versionCapture rest)) := by
  obtain ⟨hname, hgr, hne, hnl⟩ := h
  have htsOK : tsShapeOK tsL = true := (tsShapeOK_iff tsL).2 hgr
  have hlen : tsL.length = 19 := tsGrammar_length tsL hgr
  have htake : name.toList.take 19 = tsL := by rw [hname]; exact List.take_left' hlen
  have hdrop : name.toList.drop 19 = '_' :: rest := by rw [hname]; exact List.drop_left' hlen
  have hall : rest.all (fun ch => decide (ch ≠ '\n')) = true := by
    rw [List.all_eq_true]
    intro c hc
    simp [hnl c hc]
  simp only [parseFilename, htake, htsOK, if_true, hdrop]
  rw [if_pos ⟨hne, hall⟩]

theorem parseFilename_some_inv (name ts ver : String)
    (h : parseFilename name = some (ts, ver)) :
    ∃ tsL rest, NameMatch name tsL rest ∧
      ts = String.mk tsL ∧ ver = String.mk (versionCapture rest) := by
  simp only [parseFilename] at h
  by_cases hts : tsShapeOK (name.toList.take 19) = true
  · rw [if_pos hts] at h
    cases hdrop : name.toList.drop 19 with
    | nil => rw [hdrop] at h; simp at h
    | cons c verPart =>
      rw [hdrop] at h
      dsimp only at h
      by_cases hc : c = '_'
      · rw [if_pos hc] at h
        subst hc
        by_cases hcond : verPart ≠ [] ∧ verPart.all (fun ch => decide (ch ≠ '\n')) = true
        · rw [if_pos hcond] at h
          obtain ⟨h1, h2⟩ := Prod.mk.injEq .. ▸ Option.some.inj h
          refine ⟨name.toList.take 19, verPart, ⟨?_, (tsShapeOK_iff _).1 hts, hcond.1, ?_⟩,
            h1.symm ▸ rfl, h2.symm ▸ rfl⟩
          · rw [← hdrop]
            exact (List.take_append_drop 19 name.toList).symm
          · intro ch hch
            have := (List.all_eq_true.1 hcond.2) ch hch
            simpa using this
        · rw [if_neg hcond] at h
          simp at h
      · rw [if_neg hc] at h
        simp at h
  · rw [if_neg hts] at h
    simp at h

theorem nameMatch_uniq (name : String) (tsL rest tsL2 rest2 : List Char)
    (h1 : NameMatch name tsL rest) (h2 : NameMatch name tsL2 rest2) :
    tsL2 = tsL ∧ rest2 = rest := by
  obtain ⟨hn1, hg1, -, -⟩ := h1
  obtain ⟨hn2, hg2, -, -⟩ := h2
  have hl1 := tsGrammar_length tsL hg1
  have hl2 := tsGrammar_length tsL2 hg2
  have htake1 : name.toList.take 19 = tsL := by rw [hn1]; exact List.take_left' hl1
  have htake2 : name.toList.take 19 = tsL2 := by rw [hn2]; exact List.take_left' hl2
  have hdrop1 : name.toList.drop 19 = '_' :: rest := by rw [hn1]; exact List.drop_left' hl1
  have hdrop2 : name.toList.drop 19 = '_' :: rest2 := by rw [hn2]; exact List.drop_left' hl2
  refine ⟨htake2 ▸ htake1, ?_⟩
  have := hdrop1 ▸ hdrop2
  exact ((List.cons.inj this).2).symm

/-- C2 (counterexample): the claim rejects negative components and more than
3 components, but the code accepts both — `i64` parsing accepts a sign, and
`resize(3, 0)` truncates a longer vector.  Both names below parse fine, so
catalog construction does not fail with the filename-format error on them. -/
theorem filename_format_counterexample :
    parseEntry "0001-01-01_00-00-00_1.2.3.4" = .ok (1, 2, 3, 31622400) ∧
      parseEntry "0001-01-01_00-00-00_-1" = .ok (-1, 0, 0, 31622400) ∧
      parseEntry "0001-01-01_00-00-00_1.2.3.4" ≠ .error .filenameFormat ∧
      parseEntry "0001-01-01_00-00-00_-1" ≠ .error .filenameFormat :=
  ⟨by decide, by decide, by decide, by decide⟩

/-- C2 (amended): the per-entry catalog step fails with the filename-format
error iff the entry name does not match the regex (timestamp grammar,
underscore, nonempty newline-free remainder) or some dot-separated component
of the non-greedily captured version portion fails to parse as an `i64`
(optional sign, digits, within the 64-bit range — so negative components and
more than 3 components are accepted); on success, components beyond the third
are ignored and absent trailing components default to 0. -/
theorem filename_format_error_iff (name : String) :
    (parseEntry name = .error .filenameFormat ↔
      (¬ ∃ tsL rest, NameMatch name tsL rest) ∨
      (∃ tsL rest, NameMatch name tsL rest ∧ VersionBad rest)) ∧
    (∀ (ts ver : String) (vs : List Int) (t : Nat),
      parseFilename name = some (ts, ver) →
      collectParsed (splitDot ver.toList) = some vs →
      chronoParseTs ts = some t →
      parseEntry name = .ok (vs.getD 0 0, vs.getD 1 0, vs.getD 2 0, (t : Int))) := by
  constructor
  · cases hpf : parseFilename name with
    | none =>
      have hnm : ¬ ∃ tsL rest, NameMatch name tsL rest := by
        rintro ⟨tsL, rest, hm⟩
        rw [parseFilename_of_match name tsL rest hm] at hpf
        cases hpf
      simp only [parseEntry, hpf]
      exact iff_of_true trivial (Or.inl hnm)
    | some p =>
      obtain ⟨ts, ver⟩ := p
      obtain ⟨tsL, rest, hm, -, hver⟩ := parseFilename_some_inv name ts ver hpf
      have hvertl : ver.toList = versionCapture rest := by rw [hver]; rfl
      cases hcol : collectParsed (splitDot ver.toList) with
      | none =>
        have hbad : VersionBad rest := (versionBad_iff_capture rest).2 (by
          rw [← hvertl]
          exact (collectParsed_eq_none_iff _).1 hcol)
        simp only [parseEntry, hpf]
        rw [hcol]
        exact iff_of_true rfl (Or.inr ⟨tsL, rest, hm, hbad⟩)
      | some vs =>
        have hgood : ¬ ((¬ ∃ tsL rest, NameMatch name tsL rest) ∨
            (∃ tsL2 rest2, NameMatch name tsL2 rest2 ∧ VersionBad rest2)) := by
          rintro (hno | ⟨tsL2, rest2, hm2, hb2⟩)
          · exact hno ⟨tsL, rest, hm⟩
          · obtain ⟨rfl, rfl⟩ := nameMatch_uniq name tsL rest tsL2 rest2 hm hm2
            have hex : ∃ p ∈ splitDot (versionCapture rest2), parseI64 p = none :=
              (versionBad_iff_capture rest2).1 hb2
            rw [← hvertl] at hex
            rw [(collectParsed_eq_none_iff _).2 hex] at hcol
            cases hcol
        cases hct : chronoParseTs ts with
        | none =>
          simp only [parseEntry, hpf]
          rw [hcol, hct]
          exact iff_of_false (by simp) hgood
        | some t =>
          simp only [parseEntry, hpf]
          rw [hcol, hct]
          exact iff_of_false (by simp) hgood
  · intro ts ver vs t hm hv ht
    simp only [String.toList] at hv
    simp [parseEntry, hm, hv, ht, resize3]

theorem filename_format_error_iff_witness :
    parseFilename "0001-01-01_00-00-00_1.2" = some ("0001-01-01_00-00-00", "1.2") ∧
      collectParsed (splitDot ("1.2" : String).toList) = some [1, 2] ∧
      parseEntry "0001-01-01_00-00-00_1.2" =
        .ok (([1, 2] : List Int).getD 0 0, ([1, 2] : List Int).getD 1 0,
          ([1, 2] : List Int).getD 2 0, ((31622400 : Nat) : Int)) :=
  ⟨by decide, by decide,
    (filename_format_error_iff "0001-01-01_00-00-00_1.2").2 "0001-01-01_00-00-00" "1.2"
      [1, 2] 31622400 (by decide) (by decide) (by decide)⟩

end Wurstminebackup
